import Mathlib

/-
Verification development for the included-mvp task pipeline.

Shallow embedding of the core services:
  * src/workers/llmWorker.ts (retrying variant, src/unnamed/part_004): processWithLLM
  * src/services/taskService.ts: createTask / processTaskAsync / getPendingTasks /
    updateTaskStatus
  * src/services/summaryService.ts: createSummary / getSummariesByClient
  * src/services/notificationService.ts: createNotificationEvents
  * src/unnamed/part_016 (reportService): generateReport
  * src/services/emailService.ts: fetchPendingEmails / escapeHtml /
    processEmailNotification
  * src/unnamed/part_002 (emailWorker, automationWorker): processPendingEmails
    batch-size clamp, processPendingTasks

Modelling conventions:
  * The database is a Store value; supabase insert/update/select calls become pure
    state transformations.  The embedding models fault-free storage (every supabase
    call succeeds); the external summarization capability and the email provider are
    the only failure sources, modelled by oracles.
  * The summarization capability is an oracle `Nat → LLMOutcome` giving the outcome
    of each numbered attempt (1-based, as in the source loop).
  * Timestamps and generated row ids are drawn from a monotone counter `nextId`,
    which preserves the oldest-first orderings the services rely on.
  * Status writes and summary inserts are recorded in an append-only `log` so that
    the observed sequence of statuses per task is a first-class object.
-/

namespace IncludedMVP

/-- Task lifecycle status values. -/
inductive TStatus
  | pending
  | processing
  | completed
  | failed
deriving DecidableEq

/-- Notification channels: the source hard-codes exactly these two. -/
inductive EChannel
  | email
  | whatsapp
deriving DecidableEq

/-- Notification event status values. -/
inductive EStatus
  | pending
  | sent
  | failed
deriving DecidableEq

/-- A row of the tasks table. -/
structure TaskRow where
  id : String
  input : String
  output : Option String
  status : TStatus
  client_id : String
  created_at : Nat
deriving DecidableEq

/-- A row of the summaries table. -/
structure SummaryRow where
  id : Nat
  task_id : String
  client_id : String
  summary : String
  created_at : Nat
deriving DecidableEq

/-- A row of the notification_events table. -/
structure NotificationEvent where
  id : Nat
  client_id : String
  summary_id : Nat
  type : EChannel
  status : EStatus
  created_at : Nat
deriving DecidableEq

/-- A row of the clients table (the fields the email service reads). -/
structure ClientRow where
  id : String
  name : String
  email : Option String
deriving DecidableEq

/-- One entry of the write log: a status written for a task, or a summary row
inserted for a task. -/
inductive LogEntry
  | statusWrite (taskId : String) (st : TStatus)
  | summaryInsert (taskId : String)
deriving DecidableEq

/-- The database state shared by all services. -/
structure Store where
  tasks : List TaskRow
  summaries : List SummaryRow
  events : List NotificationEvent
  clients : List ClientRow
  nextId : Nat
  log : List LogEntry
deriving DecidableEq

/-! ## Summarization client (llmWorker) -/

/-- The fixed sentinel returned by processWithLLM when every attempt failed
(src/unnamed/part_004 line 117, src/workers/llmWorker.ts lines 85 and 91). -/
def SENTINEL : String := "Error processing input."

/-- Outcome of one attempt against the external summarization capability:
the call throws (or times out), or it responds with an optional content string. -/
inductive LLMOutcome
  | throwErr
  | respond (content : Option String)
deriving DecidableEq

/-- JavaScript String.prototype.trim: drop whitespace from both ends. -/
def jsTrim (s : String) : String :=
  ⟨((s.data.dropWhile Char.isWhitespace).reverse.dropWhile Char.isWhitespace).reverse⟩

/-- What one attempt yields after the worker post-processing
(`response.choices?.[0]?.message?.content?.trim()` followed by the falsiness
check): `none` when the call threw, the content was missing, or the trimmed
content is empty; otherwise the trimmed content. -/
def attemptContent : LLMOutcome → Option String
  | .throwErr => none
  | .respond none => none
  | .respond (some s) =>
      let c := jsTrim s
      if c = "" then none else some c

/-- Backoff before the retry that follows failed attempt number `attempt`:
`Math.min(1000 * Math.pow(2, attempt - 1), 5000)` (src/unnamed/part_004 line 109). -/
def backoffDelay (attempt : Nat) : Nat := min (1000 * 2 ^ (attempt - 1)) 5000

/-- Result of a processWithLLM call: the returned string, how many times the
capability was invoked, and the backoff delays slept between attempts. -/
structure LLMRun where
  result : String
  invocations : Nat
  delays : List Nat
deriving DecidableEq

/-- The retry loop of processWithLLM (src/unnamed/part_004 lines 49-114):
`remaining` attempts are left and the next attempt has number `attempt`; a
successful attempt returns its content, a failed non-final attempt sleeps the
backoff delay, and an exhausted loop falls through to the sentinel. -/
def runLLM (oracle : Nat → LLMOutcome) : Nat → Nat → LLMRun
  | 0, _ => ⟨SENTINEL, 0, []⟩
  | remaining + 1, attempt =>
      match attemptContent (oracle attempt) with
      | some c => ⟨c, 1, []⟩
      | none =>
          if remaining = 0 then ⟨SENTINEL, 1, []⟩
          else
            let r := runLLM oracle remaining (attempt + 1)
            ⟨r.result, r.invocations + 1, backoffDelay attempt :: r.delays⟩

/-- processWithLLM of src/unnamed/part_004: up to `maxRetries` attempts
(default 3 at every call site), starting at attempt number 1. -/
def processWithLLM (oracle : Nat → LLMOutcome) (maxRetries : Nat) : LLMRun :=
  runLLM oracle maxRetries 1

/-- processWithLLM of src/workers/llmWorker.ts: a single attempt, returning the
sentinel instead of throwing when the attempt fails or the content is blank. -/
def processWithLLMSingle (o : LLMOutcome) : String :=
  match attemptContent o with
  | some c => c
  | none => SENTINEL

/-! ## Store operations -/

/-- TaskService.updateTaskStatus and the inline task updates of
processTaskAsync: `update({status, output?}).eq('id', taskId)` — the filter
matches on the task id only; `output` is patched only when provided. -/
def updateTaskStatus (store : Store) (taskId : String) (status : TStatus)
    (output : Option String) : Store :=
  { store with
    tasks := store.tasks.map fun t =>
      if t.id = taskId then
        { t with
          status := status
          output := match output with
                    | some o => some o
                    | none => t.output }
      else t
    log := store.log ++ [LogEntry.statusWrite taskId status] }

/-- NotificationService.createNotificationEvents: inserts one email and one
whatsapp event, both with status pending, for the given summary. -/
def createNotificationEvents (store : Store) (clientId : String) (summaryId : Nat) :
    Store :=
  { store with
    events := store.events ++
      [ ⟨store.nextId, clientId, summaryId, EChannel.email, EStatus.pending, store.nextId⟩,
        ⟨store.nextId + 1, clientId, summaryId, EChannel.whatsapp, EStatus.pending,
          store.nextId + 1⟩ ]
    nextId := store.nextId + 2 }

/-- SummaryService.createSummary: inserts one summary row for the task, then
creates the notification events (fault-free, so the non-blocking fan-out
succeeds). -/
def createSummary (store : Store) (taskId clientId summary : String) : Store :=
  let sid := store.nextId
  let store1 : Store :=
    { store with
      summaries := store.summaries ++ [⟨sid, taskId, clientId, summary, sid⟩]
      nextId := store.nextId + 1
      log := store.log ++ [LogEntry.summaryInsert taskId] }
  createNotificationEvents store1 clientId sid

/-- The insert performed by TaskService.createTask: a new task row with
status pending and null output. -/
def insertTask (store : Store) (taskId text clientId : String) : Store :=
  { store with
    tasks := store.tasks ++ [⟨taskId, text, none, TStatus.pending, clientId, store.nextId⟩]
    nextId := store.nextId + 1
    log := store.log ++ [LogEntry.statusWrite taskId TStatus.pending] }

/-- TaskService.processTaskAsync (src/services/taskService.ts lines 51-105):
set status processing, call processWithLLM, then either record the failed task
(result equals the sentinel) or persist the summary and mark completed.  The
oracle is the capability's behaviour on this task's input text. -/
def processTaskAsync (oracle : Nat → LLMOutcome) (maxRetries : Nat)
    (taskId clientId : String) (store : Store) : Store :=
  let store1 := updateTaskStatus store taskId TStatus.processing none
  let summary := (processWithLLM oracle maxRetries).result
  if summary = SENTINEL then
    updateTaskStatus store1 taskId TStatus.failed (some summary)
  else
    let store2 := createSummary store1 taskId clientId summary
    updateTaskStatus store2 taskId TStatus.completed (some summary)

/-- TaskService.createTask: insert the pending row, then run the (sequentially
modelled) asynchronous continuation.  `cap` maps an input text to the
capability's per-attempt outcomes. -/
def createTask (cap : String → Nat → LLMOutcome) (maxRetries : Nat)
    (taskId text clientId : String) (store : Store) : Store :=
  processTaskAsync (cap text) maxRetries taskId clientId
    (insertTask store taskId text clientId)

/-- Current status of a task row, looked up by id. -/
def taskStatus (store : Store) (taskId : String) : Option TStatus :=
  (store.tasks.find? fun t => decide (t.id = taskId)).map (·.status)

/-- Current output of a task row, looked up by id. -/
def taskOutput (store : Store) (taskId : String) : Option (Option String) :=
  (store.tasks.find? fun t => decide (t.id = taskId)).map (·.output)

/-- The summary rows whose task_id is the given task. -/
def summariesFor (store : Store) (taskId : String) : List SummaryRow :=
  store.summaries.filter fun s => decide (s.task_id = taskId)

/-! ## Ordering relations used by the select queries -/

/-- order('created_at', ascending: true) on tasks. -/
def taskOldestFirst (a b : TaskRow) : Prop := a.created_at ≤ b.created_at

instance : DecidableRel taskOldestFirst := fun a b => Nat.decLe _ _

instance : IsTotal TaskRow taskOldestFirst := ⟨fun a b => Nat.le_total _ _⟩

instance : IsTrans TaskRow taskOldestFirst := ⟨fun _ _ _ => Nat.le_trans⟩

/-- order('created_at', ascending: true) on notification events. -/
def eventOldestFirst (a b : NotificationEvent) : Prop := a.created_at ≤ b.created_at

instance : DecidableRel eventOldestFirst := fun a b => Nat.decLe _ _

instance : IsTotal NotificationEvent eventOldestFirst := ⟨fun a b => Nat.le_total _ _⟩

instance : IsTrans NotificationEvent eventOldestFirst := ⟨fun _ _ _ => Nat.le_trans⟩

/-- order('created_at', ascending: false) on summaries. -/
def summaryNewestFirst (a b : SummaryRow) : Prop := b.created_at ≤ a.created_at

instance : DecidableRel summaryNewestFirst := fun a b => Nat.decLe _ _

instance : IsTotal SummaryRow summaryNewestFirst := ⟨fun a b => Nat.le_total _ _⟩

instance : IsTrans SummaryRow summaryNewestFirst := ⟨fun _ _ _ h h2 => Nat.le_trans h2 h⟩

/-! ## Recovery sweeper (automation worker) -/

/-- TaskService.getPendingTasks: select tasks with status pending, ordered by
created_at ascending, limited.  (The source projects id, input, client_id; the
full row carries the same fields.) -/
def getPendingTasks (store : Store) (limit : Nat) : List TaskRow :=
  (List.insertionSort taskOldestFirst
    (store.tasks.filter fun t => decide (t.status = TStatus.pending))).take limit

/-- The loop body of processPendingTasks (src/unnamed/part_002 lines 267-286):
write status processing (matching on the task id only), call processWithLLM on
the task's input, then record failed or persist the summary and record
completed — the same store operations processTaskAsync performs. -/
def sweepTask (cap : String → Nat → LLMOutcome) (maxRetries : Nat) (t : TaskRow)
    (store : Store) : Store :=
  processTaskAsync (cap t.input) maxRetries t.id t.client_id store

/-- processPendingTasks (src/unnamed/part_002 lines 260-287): fetch up to 10
pending tasks and re-drive each sequentially through the lifecycle. -/
def processPendingTasks (cap : String → Nat → LLMOutcome) (maxRetries : Nat)
    (store : Store) : Store :=
  (getPendingTasks store 10).foldl (fun st t => sweepTask cap maxRetries t st) store

/-! ## Report service -/

/-- The fixed report header of src/unnamed/part_016. -/
def reportHeader : String := "📝 Daily Report:"

/-- SummaryService.getSummariesByClient: summaries filtered by client_id,
ordered by created_at descending. -/
def getSummariesByClient (store : Store) (clientId : String) : List SummaryRow :=
  List.insertionSort summaryNewestFirst
    (store.summaries.filter fun s => decide (s.client_id = clientId))

/-- ReportService.generateReport (src/unnamed/part_016 lines 14-36): the fixed
message when the client has no summaries, else the header followed by one
bullet per truthy (non-empty) summary string. -/
def generateReport (store : Store) (clientId : String) : String :=
  if (getSummariesByClient store clientId).length = 0 then
    reportHeader ++ "\n- No completed tasks found."
  else
    (getSummariesByClient store clientId).foldl
      (fun report item =>
        if item.summary = "" then report else report ++ "\n- " ++ item.summary)
      reportHeader

/-! ## Email service and email worker -/

/-- EmailService.fetchPendingEmails (src/services/emailService.ts lines 29-51):
select notification events with type email and status pending, ordered by
created_at ascending, limited. -/
def fetchPendingEmails (store : Store) (limit : Nat) : List NotificationEvent :=
  (List.insertionSort eventOldestFirst
    (store.events.filter fun e =>
      decide (e.type = EChannel.email ∧ e.status = EStatus.pending))).take limit

/-- The batch-size validation of processPendingEmails (src/unnamed/part_002
line 23): out-of-range sizes fall back to the default 10. -/
def normalizeBatchSize (batchSize : Int) : Int :=
  if batchSize < 1 ∨ batchSize > 100 then 10 else batchSize

/-- The fetch performed by one cycle of processPendingEmails: the pending email
events, limited by the validated batch size. -/
def processPendingEmailsFetch (store : Store) (batchSize : Int) :
    List NotificationEvent :=
  fetchPendingEmails store (normalizeBatchSize batchSize).toNat

/-- EmailService.updateStatus: patch one notification event's status by id. -/
def updateStatus (store : Store) (eventId : Nat) (status : EStatus) : Store :=
  { store with
    events := store.events.map fun e =>
      if e.id = eventId then { e with status := status } else e }

/-- Lookup of a summary row by id (single-row select). -/
def findSummary (store : Store) (summaryId : Nat) : Option SummaryRow :=
  store.summaries.find? fun s => decide (s.id = summaryId)

/-- Lookup of a client row by id (single-row select). -/
def findClient (store : Store) (clientId : String) : Option ClientRow :=
  store.clients.find? fun c => decide (c.id = clientId)

/-- EmailService.getClientEmailForSummary: summary → client → email, `none` when
either lookup fails or the client has no (or an empty, hence falsy) email. -/
def getClientEmailForSummary (store : Store) (summaryId : Nat) : Option String :=
  match findSummary store summaryId with
  | none => none
  | some srow =>
      match findClient store srow.client_id with
      | none => none
      | some c =>
          match c.email with
          | none => none
          | some e => if e = "" then none else some e

/-- EmailService.getSummaryContent: the summary text and the client name. -/
def getSummaryContent (store : Store) (summaryId : Nat) :
    Option (String × String) :=
  match findSummary store summaryId with
  | none => none
  | some srow =>
      match findClient store srow.client_id with
      | none => none
      | some c => some (srow.summary, c.name)

/-- Per-character HTML escaping map of EmailService.escapeHtml
(src/services/emailService.ts lines 261-271).  The double-quote and apostrophe
characters are written via their code points 34 and 39. -/
def htmlEscapeChar (c : Char) : String :=
  if c = '&' then "&amp;"
  else if c = '<' then "&lt;"
  else if c = '>' then "&gt;"
  else if c = Char.ofNat 34 then "&quot;"
  else if c = Char.ofNat 39 then "&#x27;"
  else if c = '/' then "&#x2F;"
  else String.singleton c

/-- The character-list form of the global regex replace: each character is
replaced by its escape and the pieces are concatenated. -/
def escapeData : List Char → List Char
  | [] => []
  | c :: cs => (htmlEscapeChar c).data ++ escapeData cs

/-- EmailService.escapeHtml: replace every occurrence of the six special
characters by its HTML entity. -/
def escapeHtml (text : String) : String := ⟨escapeData text.data⟩

/-- The subject line used by processEmailNotification. -/
def emailSubject : String := "Included — New Summary Ready"

/-- The fixed HTML template text before the interpolated summary
(the template literal of processEmailNotification after its trim). -/
def emailHtmlBefore : String :=
  "<!DOCTYPE html>\n<html>\n<head>\n  <meta charset=\"UTF-8\">\n  <title>Included — New Summary Ready</title>\n</head>\n<body style=\"font-family: Arial, sans-serif; line-height: 1.6; color: #333; max-width: 600px; margin: 0 auto; padding: 20px;\">\n  <p>Hello,</p>\n  \n  <p>Here is your latest summary:</p>\n  \n  <div style=\"background-color: #f9f9f9; border-left: 4px solid #2c3e50; padding: 15px; margin: 20px 0;\">\n    <p style=\"margin: 0; font-size: 16px; line-height: 1.6;\">"

/-- The fixed HTML template text after the interpolated summary. -/
def emailHtmlAfter : String :=
  "</p>\n  </div>\n  \n  <p style=\"margin-top: 30px;\">Included AI Assistant</p>\n</body>\n</html>"

/-- The outbound email body: the template with the escaped summary text
interpolated (src/services/emailService.ts line 313). -/
def buildEmailHtml (summaryText : String) : String :=
  emailHtmlBefore ++ escapeHtml summaryText ++ emailHtmlAfter

/-- An email handed to the delivery provider (`recipient` models the `to`
field of sendEmail). -/
structure OutboundEmail where
  recipient : String
  subject : String
  html : String
deriving DecidableEq

/-- EmailService.processEmailNotification (src/services/emailService.ts lines
280-339): resolve the client email and summary content (marking the event
failed when a lookup fails), build the email, attempt delivery (`deliveryOk`
abstracts the retried send succeeding), and mark the event sent or failed.
Returns the new store, the email handed to the provider (if the lookups
succeeded), and the boolean the worker receives. -/
def processEmailNotification (store : Store) (event : NotificationEvent)
    (deliveryOk : Bool) : Store × Option OutboundEmail × Bool :=
  match getClientEmailForSummary store event.summary_id with
  | none => (updateStatus store event.id EStatus.failed, none, false)
  | some clientEmail =>
      match getSummaryContent store event.summary_id with
      | none => (updateStatus store event.id EStatus.failed, none, false)
      | some content =>
          let mail : OutboundEmail :=
            ⟨clientEmail, emailSubject, buildEmailHtml content.1⟩
          if deliveryOk then
            (updateStatus store event.id EStatus.sent, some mail, true)
          else
            (updateStatus store event.id EStatus.failed, some mail, false)

/-! ## String helpers -/

lemma string_append_assoc (a b c : String) : a ++ b ++ c = a ++ (b ++ c) := by
  apply String.ext
  simp [String.data_append, List.append_assoc]

lemma string_append_empty (s : String) : s ++ "" = s := by
  apply String.ext
  simp [String.data_append]

lemma string_empty_append (s : String) : "" ++ s = s := by
  apply String.ext
  simp [String.data_append]

lemma string_foldl_append (l : List String) :
    ∀ a b : String, l.foldl (· ++ ·) (a ++ b) = a ++ l.foldl (· ++ ·) b := by
  induction l with
  | nil => intro a b; rfl
  | cons x xs ih =>
      intro a b
      simp only [List.foldl_cons]
      rw [string_append_assoc, ih]

lemma string_join_cons (s : String) (l : List String) :
    String.join (s :: l) = s ++ String.join l := by
  show l.foldl (· ++ ·) ("" ++ s) = s ++ l.foldl (· ++ ·) ""
  rw [string_empty_append, ← string_append_empty s, string_foldl_append,
    string_append_empty]

/-! ## Retry-loop lemmas for processWithLLM -/

/-- The backoff delays slept after `count` consecutive failed attempts starting
at attempt number `start`. -/
def backoffDelays : Nat → Nat → List Nat
  | _, 0 => []
  | start, count + 1 => backoffDelay start :: backoffDelays (start + 1) count

lemma backoffDelays_eq_map (start k : Nat) :
    backoffDelays start k = (List.range k).map fun i => backoffDelay (start + i) := by
  induction k generalizing start with
  | zero => rfl
  | succ n ih =>
      rw [List.range_succ_eq_map, List.map_cons, List.map_map]
      show backoffDelay start :: backoffDelays (start + 1) n = _
      rw [ih (start + 1)]
      congr 1
      apply List.map_congr_left
      intro i _
      show backoffDelay (start + 1 + i) = backoffDelay (start + Nat.succ i)
      congr 1
      omega

lemma backoffDelays_one (k : Nat) :
    backoffDelays 1 k = (List.range k).map fun i => min (1000 * 2 ^ i) 5000 := by
  rw [backoffDelays_eq_map]
  apply List.map_congr_left
  intro i _
  show backoffDelay (1 + i) = _
  simp [backoffDelay, Nat.add_sub_cancel_left]

/-- One unfolding of the retry loop. -/
lemma runLLM_succ (oracle : Nat → LLMOutcome) (n attempt : Nat) :
    runLLM oracle (n + 1) attempt =
      match attemptContent (oracle attempt) with
      | some c => ⟨c, 1, []⟩
      | none =>
          if n = 0 then ⟨SENTINEL, 1, []⟩
          else
            ⟨(runLLM oracle n (attempt + 1)).result,
             (runLLM oracle n (attempt + 1)).invocations + 1,
             backoffDelay attempt :: (runLLM oracle n (attempt + 1)).delays⟩ := rfl

lemma runLLM_all_fail (oracle : Nat → LLMOutcome) :
    ∀ fuel attempt,
      (∀ a, attempt ≤ a → a < attempt + fuel → attemptContent (oracle a) = none) →
      runLLM oracle fuel attempt = ⟨SENTINEL, fuel, backoffDelays attempt (fuel - 1)⟩ := by
  intro fuel
  induction fuel with
  | zero => intro attempt _; rfl
  | succ n ih =>
      intro attempt h
      have h0 : attemptContent (oracle attempt) = none := h attempt le_rfl (by omega)
      cases n with
      | zero => rw [runLLM_succ, h0]; rfl
      | succ m =>
          have hrec := ih (attempt + 1) (fun a ha hb => h a (by omega) (by omega))
          rw [runLLM_succ, h0]
          show (if m + 1 = 0 then (⟨SENTINEL, 1, []⟩ : LLMRun) else _) = _
          rw [if_neg (by omega), hrec]
          show (⟨SENTINEL, m + 1 + 1,
              backoffDelay attempt :: backoffDelays (attempt + 1) (m + 1 - 1)⟩ : LLMRun) = _
          rfl

lemma runLLM_fail_then_succeed (oracle : Nat → LLMOutcome) (c : String) :
    ∀ j fuel attempt,
      j < fuel →
      (∀ a, attempt ≤ a → a < attempt + j → attemptContent (oracle a) = none) →
      attemptContent (oracle (attempt + j)) = some c →
      runLLM oracle fuel attempt = ⟨c, j + 1, backoffDelays attempt j⟩ := by
  intro j
  induction j with
  | zero =>
      intro fuel attempt hlt _ hsucc
      cases fuel with
      | zero => omega
      | succ n =>
          rw [Nat.add_zero] at hsucc
          rw [runLLM_succ, hsucc]
          rfl
  | succ m ih =>
      intro fuel attempt hlt hfail hsucc
      cases fuel with
      | zero => omega
      | succ n =>
          have h0 : attemptContent (oracle attempt) = none :=
            hfail attempt le_rfl (by omega)
          have hs2 : attemptContent (oracle (attempt + 1 + m)) = some c := by
            have he : attempt + 1 + m = attempt + (m + 1) := by omega
            rw [he]; exact hsucc
          have hrec := ih n (attempt + 1) (by omega)
            (fun a ha hb => hfail a (by omega) (by omega)) hs2
          rw [runLLM_succ, h0]
          show (if n = 0 then (⟨SENTINEL, 1, []⟩ : LLMRun) else _) = _
          rw [if_neg (by omega), hrec]
          rfl

lemma runLLM_result_cases (oracle : Nat → LLMOutcome) :
    ∀ fuel attempt,
      (runLLM oracle fuel attempt).result = SENTINEL ∨
      ∃ a, attempt ≤ a ∧ a < attempt + fuel ∧
        attemptContent (oracle a) = some (runLLM oracle fuel attempt).result := by
  intro fuel
  induction fuel with
  | zero => intro attempt; left; rfl
  | succ n ih =>
      intro attempt
      cases hoc : attemptContent (oracle attempt) with
      | some c =>
          right
          refine ⟨attempt, le_rfl, by omega, ?_⟩
          rw [runLLM_succ, hoc]
      | none =>
          cases n with
          | zero => left; rw [runLLM_succ, hoc]; rfl
          | succ m =>
              have hres : (runLLM oracle (m + 1 + 1) attempt).result
                  = (runLLM oracle (m + 1) (attempt + 1)).result := by
                rw [runLLM_succ, hoc]
                show (if m + 1 = 0 then (⟨SENTINEL, 1, []⟩ : LLMRun) else _).result = _
                rw [if_neg (by omega)]
              rcases ih (attempt + 1) with h | ⟨a, ha1, ha2, ha3⟩
              · left; rw [hres]; exact h
              · right
                exact ⟨a, by omega, by omega, by rw [hres]; exact ha3⟩

/-! ## Store-level lemmas -/

lemma find?_status_update (taskId : String) (st : TStatus) (out : Option String) :
    ∀ l : List TaskRow,
      Option.map (fun x => x.status)
        ((l.map fun t =>
            if t.id = taskId then
              { t with
                status := st
                output := match out with | some o => some o | none => t.output }
            else t).find? (fun t => decide (t.id = taskId)))
      = Option.map (fun _ => st)
          (Option.map (fun x => x.status)
            (l.find? (fun t => decide (t.id = taskId)))) := by
  intro l
  induction l with
  | nil => rfl
  | cons t ts ih =>
      rw [List.map_cons]
      by_cases h : t.id = taskId
      · rw [if_pos h, List.find?_cons_of_pos _ (by simp [h]),
          List.find?_cons_of_pos _ (by simp [h])]
        rfl
      · rw [if_neg h, List.find?_cons_of_neg _ (by simp [h]),
          List.find?_cons_of_neg _ (by simp [h])]
        exact ih

lemma taskStatus_update_self (store : Store) (taskId : String) (st : TStatus)
    (out : Option String) :
    taskStatus (updateTaskStatus store taskId st out) taskId
      = (taskStatus store taskId).map fun _ => st := by
  unfold taskStatus updateTaskStatus
  exact find?_status_update taskId st out store.tasks

lemma taskStatus_createSummary (store : Store) (tid cid s anyId : String) :
    taskStatus (createSummary store tid cid s) anyId = taskStatus store anyId := rfl

lemma summariesFor_update (store : Store) (tid : String) (st : TStatus)
    (out : Option String) (anyId : String) :
    summariesFor (updateTaskStatus store tid st out) anyId
      = summariesFor store anyId := rfl

lemma summariesFor_createSummary_self (store : Store) (tid cid s : String) :
    summariesFor (createSummary store tid cid s) tid
      = summariesFor store tid ++ [⟨store.nextId, tid, cid, s, store.nextId⟩] := by
  unfold createSummary createNotificationEvents summariesFor
  simp [List.filter_append]

lemma updateTaskStatus_log (store : Store) (tid : String) (st : TStatus)
    (out : Option String) :
    (updateTaskStatus store tid st out).log
      = store.log ++ [LogEntry.statusWrite tid st] := rfl

lemma createSummary_log (store : Store) (tid cid s : String) :
    (createSummary store tid cid s).log
      = store.log ++ [LogEntry.summaryInsert tid] := rfl

lemma processTaskAsync_log (oracle : Nat → LLMOutcome) (maxR : Nat)
    (taskId clientId : String) (store : Store) :
    (processTaskAsync oracle maxR taskId clientId store).log
      = store.log ++
        (if (processWithLLM oracle maxR).result = SENTINEL then
          [LogEntry.statusWrite taskId TStatus.processing,
           LogEntry.statusWrite taskId TStatus.failed]
         else
          [LogEntry.statusWrite taskId TStatus.processing,
           LogEntry.summaryInsert taskId,
           LogEntry.statusWrite taskId TStatus.completed]) := by
  unfold processTaskAsync
  by_cases h : (processWithLLM oracle maxR).result = SENTINEL
  · rw [if_pos h, if_pos h, updateTaskStatus_log, updateTaskStatus_log,
      List.append_assoc]
    rfl
  · rw [if_neg h, if_neg h, updateTaskStatus_log, createSummary_log,
      updateTaskStatus_log, List.append_assoc, List.append_assoc]
    rfl

/-- The statuses written for a given task, in order, as recorded by the log. -/
def statusWritesFor (taskId : String) (log : List LogEntry) : List TStatus :=
  log.filterMap fun e =>
    match e with
    | .statusWrite t st => if t = taskId then some st else none
    | .summaryInsert _ => none

lemma statusWritesFor_append (taskId : String) (l1 l2 : List LogEntry) :
    statusWritesFor taskId (l1 ++ l2)
      = statusWritesFor taskId l1 ++ statusWritesFor taskId l2 :=
  List.filterMap_append l1 l2 _

/-- The log entries one sweeper loop iteration appends for its task. -/
def sweepBlock (cap : String → Nat → LLMOutcome) (maxR : Nat) (t : TaskRow) :
    List LogEntry :=
  if (processWithLLM (cap t.input) maxR).result = SENTINEL then
    [LogEntry.statusWrite t.id TStatus.processing,
     LogEntry.statusWrite t.id TStatus.failed]
  else
    [LogEntry.statusWrite t.id TStatus.processing,
     LogEntry.summaryInsert t.id,
     LogEntry.statusWrite t.id TStatus.completed]

lemma sweepTask_log (cap : String → Nat → LLMOutcome) (maxR : Nat) (t : TaskRow)
    (store : Store) :
    (sweepTask cap maxR t store).log = store.log ++ sweepBlock cap maxR t :=
  processTaskAsync_log (cap t.input) maxR t.id t.client_id store

lemma foldl_sweep_log (cap : String → Nat → LLMOutcome) (maxR : Nat) :
    ∀ (ts : List TaskRow) (store : Store),
      ((ts.foldl (fun st t => sweepTask cap maxR t st) store).log)
        = store.log ++ (ts.map (sweepBlock cap maxR)).flatten := by
  intro ts
  induction ts with
  | nil => intro store; simp
  | cons t rest ih =>
      intro store
      rw [List.foldl_cons, List.map_cons, List.flatten_cons, ih, sweepTask_log,
        List.append_assoc]

lemma statusWritesFor_sweepBlock_self (cap : String → Nat → LLMOutcome)
    (maxR : Nat) (t : TaskRow) :
    statusWritesFor t.id (sweepBlock cap maxR t)
      = [TStatus.processing,
         if (processWithLLM (cap t.input) maxR).result = SENTINEL then TStatus.failed
         else TStatus.completed] := by
  by_cases h : (processWithLLM (cap t.input) maxR).result = SENTINEL
  · simp [sweepBlock, statusWritesFor, h]
  · simp [sweepBlock, statusWritesFor, h]

lemma statusWritesFor_sweepBlock_other (cap : String → Nat → LLMOutcome)
    (maxR : Nat) (t : TaskRow) (tid : String) (h : ¬ t.id = tid) :
    statusWritesFor tid (sweepBlock cap maxR t) = [] := by
  by_cases hs : (processWithLLM (cap t.input) maxR).result = SENTINEL
  · simp [sweepBlock, statusWritesFor, hs, h]
  · simp [sweepBlock, statusWritesFor, hs, h]

lemma statusWritesFor_flatten_other (cap : String → Nat → LLMOutcome) (maxR : Nat)
    (tid : String) :
    ∀ ts : List TaskRow, (∀ t ∈ ts, ¬ t.id = tid) →
      statusWritesFor tid ((ts.map (sweepBlock cap maxR)).flatten) = [] := by
  intro ts
  induction ts with
  | nil => intro _; rfl
  | cons t rest ih =>
      intro h
      rw [List.map_cons, List.flatten_cons, statusWritesFor_append,
        statusWritesFor_sweepBlock_other cap maxR t tid (h t (by simp)),
        ih (fun x hx => h x (by simp [hx]))]
      rfl

/-! ## Query lemmas -/

lemma getPendingTasks_mem (store : Store) (limit : Nat) (t : TaskRow)
    (ht : t ∈ getPendingTasks store limit) :
    t ∈ store.tasks ∧ t.status = TStatus.pending := by
  unfold getPendingTasks at ht
  have h1 := List.mem_of_mem_take ht
  have h2 := (List.perm_insertionSort taskOldestFirst _).mem_iff.mp h1
  have h3 := List.mem_filter.mp h2
  exact ⟨h3.1, by simpa using h3.2⟩

lemma getPendingTasks_ids_nodup (store : Store) (limit : Nat)
    (h : (store.tasks.map fun t => t.id).Nodup) :
    ((getPendingTasks store limit).map fun t => t.id).Nodup := by
  unfold getPendingTasks
  have h1 : List.Sublist
      ((store.tasks.filter fun t => decide (t.status = TStatus.pending)).map fun t => t.id)
      (store.tasks.map fun t => t.id) :=
    (List.filter_sublist store.tasks).map _
  have h2 := h.sublist h1
  have h3 : ((List.insertionSort taskOldestFirst
        (store.tasks.filter fun t => decide (t.status = TStatus.pending))).map
          fun t => t.id).Nodup :=
    (((List.perm_insertionSort taskOldestFirst _).map fun t => t.id).nodup_iff).mpr h2
  exact h3.sublist ((List.take_sublist _ _).map _)

lemma getSummariesByClient_mem (store : Store) (clientId : String) (s : SummaryRow)
    (hs : s ∈ getSummariesByClient store clientId) :
    s ∈ store.summaries ∧ s.client_id = clientId := by
  unfold getSummariesByClient at hs
  have h2 := (List.perm_insertionSort summaryNewestFirst _).mem_iff.mp hs
  have h3 := List.mem_filter.mp h2
  exact ⟨h3.1, by simpa using h3.2⟩

lemma fetchPendingEmails_mem (store : Store) (limit : Nat) (e : NotificationEvent)
    (he : e ∈ fetchPendingEmails store limit) :
    e ∈ store.events ∧ e.type = EChannel.email ∧ e.status = EStatus.pending := by
  unfold fetchPendingEmails at he
  have h1 := List.mem_of_mem_take he
  have h2 := (List.perm_insertionSort eventOldestFirst _).mem_iff.mp h1
  have h3 := List.mem_filter.mp h2
  have h4 : e.type = EChannel.email ∧ e.status = EStatus.pending := by
    simpa using h3.2
  exact ⟨h3.1, h4⟩

/-! ## Report lemmas and the isolation / formatting claims -/

/-- The store with only the given tenant's summary rows kept. -/
def restrictToClient (store : Store) (clientId : String) : Store :=
  { store with
    summaries := store.summaries.filter fun s => decide (s.client_id = clientId) }

lemma getSummariesByClient_restrict (store : Store) (clientId : String) :
    getSummariesByClient (restrictToClient store clientId) clientId
      = getSummariesByClient store clientId := by
  unfold getSummariesByClient restrictToClient
  congr 1
  rw [List.filter_filter]
  apply List.filter_congr
  intro x _
  exact Bool.and_self _

lemma report_foldl (l : List SummaryRow) :
    ∀ acc : String,
      l.foldl (fun report item =>
          if item.summary = "" then report else report ++ "\n- " ++ item.summary) acc
        = acc ++ String.join ((l.filter fun s => decide (¬ s.summary = "")).map
            fun s => "\n- " ++ s.summary) := by
  induction l with
  | nil =>
      intro acc
      rw [List.foldl_nil, List.filter_nil, List.map_nil]
      exact (string_append_empty acc).symm
  | cons x xs ih =>
      intro acc
      rw [List.foldl_cons]
      by_cases h : x.summary = ""
      · rw [if_pos h, ih, List.filter_cons_of_neg (by simp [h])]
      · rw [if_neg h, ih, List.filter_cons_of_pos (by simp [h]), List.map_cons,
          string_join_cons]
        apply String.ext
        simp [String.data_append, List.append_assoc]

/-- C1.  Tenant isolation of reports: every summary row the report generation
for tenant `a` reads has client_id `a`, hence (for `b ≠ a`) none has
client_id `b`, and the generated report is unchanged when every other
tenant's summary rows are removed from the store. -/
theorem report_tenant_isolation (store : Store) (a b : String) (hab : ¬ a = b) :
    (∀ s ∈ getSummariesByClient store a, s.client_id = a)
    ∧ (∀ s ∈ getSummariesByClient store a, ¬ s.client_id = b)
    ∧ generateReport store a = generateReport (restrictToClient store a) a := by
  refine ⟨fun s hs => (getSummariesByClient_mem store a s hs).2,
    fun s hs hb => ?_, ?_⟩
  · exact hab (((getSummariesByClient_mem store a s hs).2).symm.trans hb)
  · unfold generateReport
    rw [getSummariesByClient_restrict]

def c1Store : Store :=
  { tasks := []
    summaries := [⟨1, "t1", "A", "S1", 1⟩, ⟨2, "t2", "B", "S2", 2⟩]
    events := []
    clients := []
    nextId := 3
    log := [] }

/-- C1 witness: the isolation theorem applied to a concrete two-tenant store. -/
theorem report_tenant_isolation_witness :
    (¬ "A" = "B")
    ∧ generateReport c1Store "A" = generateReport (restrictToClient c1Store "A") "A" :=
  ⟨by decide, (report_tenant_isolation c1Store "A" "B" (by decide)).2.2⟩

/-- C8.  Report formatting: with no summaries the report is the fixed
"no completed tasks" message; otherwise it is the fixed header followed by
exactly one "\n- " bullet per non-empty summary (empty-string summaries
contribute nothing); in all cases the report starts with the fixed header. -/
theorem report_formatting (store : Store) (clientId : String) :
    (getSummariesByClient store clientId = [] →
      generateReport store clientId = reportHeader ++ "\n- No completed tasks found.")
    ∧ (¬ getSummariesByClient store clientId = [] →
      generateReport store clientId
        = reportHeader ++ String.join
            (((getSummariesByClient store clientId).filter fun s =>
                decide (¬ s.summary = "")).map fun s => "\n- " ++ s.summary))
    ∧ ∃ rest, generateReport store clientId = reportHeader ++ rest := by
  by_cases he : getSummariesByClient store clientId = []
  · have hl : (getSummariesByClient store clientId).length = 0 := by rw [he]; rfl
    refine ⟨fun _ => ?_, fun hne => absurd he hne,
      ⟨"\n- No completed tasks found.", ?_⟩⟩
    · unfold generateReport
      rw [if_pos hl]
    · unfold generateReport
      rw [if_pos hl]
  · have hl : ¬ (getSummariesByClient store clientId).length = 0 := by
      intro h0
      exact he (List.length_eq_zero.mp h0)
    have hmain : generateReport store clientId
        = reportHeader ++ String.join
            (((getSummariesByClient store clientId).filter fun s =>
                decide (¬ s.summary = "")).map fun s => "\n- " ++ s.summary) := by
      unfold generateReport
      rw [if_neg hl, report_foldl]
    exact ⟨fun h0 => absurd h0 he, fun _ => hmain, ⟨_, hmain⟩⟩

def c8Store : Store :=
  { tasks := []
    summaries := [⟨1, "t1", "A", "S1", 1⟩, ⟨2, "t2", "A", "", 2⟩]
    events := []
    clients := []
    nextId := 3
    log := [] }

/-- C8 witness: the formatting theorem applied to a concrete store with one
non-empty and one empty summary for tenant A, and to a tenant with none. -/
theorem report_formatting_witness :
    (getSummariesByClient c8Store "Z" = [] →
      generateReport c8Store "Z" = reportHeader ++ "\n- No completed tasks found.")
    ∧ (¬ getSummariesByClient c8Store "A" = [] →
      generateReport c8Store "A"
        = reportHeader ++ String.join
            (((getSummariesByClient c8Store "A").filter fun s =>
                decide (¬ s.summary = "")).map fun s => "\n- " ++ s.summary)) :=
  ⟨(report_formatting c8Store "Z").1, (report_formatting c8Store "A").2.1⟩

/-! ## Exactly-one-summary and status-monotonicity claims -/

/-- C3.  Exactly-one summary: starting from a store with no summary rows for
the task, a lifecycle run that ends with the task completed leaves exactly one
summary row with that task_id, a run that ends with the task failed leaves
none, and on the success path the summary row is inserted before the completed
status is written (shown by the write log). -/
theorem exactly_one_summary
    (oracle : Nat → LLMOutcome) (maxRetries : Nat) (taskId clientId : String)
    (store : Store) (hfresh : summariesFor store taskId = []) :
    (taskStatus (processTaskAsync oracle maxRetries taskId clientId store) taskId
        = some TStatus.completed →
      (summariesFor (processTaskAsync oracle maxRetries taskId clientId store)
          taskId).length = 1)
    ∧ (taskStatus (processTaskAsync oracle maxRetries taskId clientId store) taskId
        = some TStatus.failed →
      summariesFor (processTaskAsync oracle maxRetries taskId clientId store)
          taskId = [])
    ∧ (¬ (processWithLLM oracle maxRetries).result = SENTINEL →
      (processTaskAsync oracle maxRetries taskId clientId store).log
        = store.log ++
          [LogEntry.statusWrite taskId TStatus.processing,
           LogEntry.summaryInsert taskId,
           LogEntry.statusWrite taskId TStatus.completed]) := by
  by_cases h : (processWithLLM oracle maxRetries).result = SENTINEL
  · have hA : processTaskAsync oracle maxRetries taskId clientId store
        = updateTaskStatus (updateTaskStatus store taskId TStatus.processing none)
            taskId TStatus.failed (some (processWithLLM oracle maxRetries).result) := by
      unfold processTaskAsync
      rw [if_pos h]
    have hs : taskStatus (processTaskAsync oracle maxRetries taskId clientId store) taskId
        = ((taskStatus store taskId).map fun _ => TStatus.processing).map
            fun _ => TStatus.failed := by
      rw [hA, taskStatus_update_self, taskStatus_update_self]
    refine ⟨fun hcomp => absurd hcomp ?_, fun _ => ?_, fun hns => absurd h hns⟩
    · rw [hs]
      cases taskStatus store taskId with
      | none => simp
      | some st => simp
    · rw [hA, summariesFor_update, summariesFor_update]
      exact hfresh
  · have hA : processTaskAsync oracle maxRetries taskId clientId store
        = updateTaskStatus
            (createSummary (updateTaskStatus store taskId TStatus.processing none)
              taskId clientId (processWithLLM oracle maxRetries).result)
            taskId TStatus.completed (some (processWithLLM oracle maxRetries).result) := by
      unfold processTaskAsync
      rw [if_neg h]
    have hs : taskStatus (processTaskAsync oracle maxRetries taskId clientId store) taskId
        = ((taskStatus store taskId).map fun _ => TStatus.processing).map
            fun _ => TStatus.completed := by
      rw [hA, taskStatus_update_self, taskStatus_createSummary, taskStatus_update_self]
    refine ⟨fun _ => ?_, fun hfail => absurd hfail ?_, fun _ => ?_⟩
    · rw [hA, summariesFor_update, summariesFor_createSummary_self,
        summariesFor_update, hfresh]
      rfl
    · rw [hs]
      cases taskStatus store taskId with
      | none => simp
      | some st => simp
    · rw [processTaskAsync_log, if_neg h]

def c3Store : Store :=
  { tasks := [⟨"t1", "in", none, TStatus.pending, "A", 0⟩]
    summaries := []
    events := []
    clients := []
    nextId := 1
    log := [] }

def c3Oracle : Nat → LLMOutcome := fun _ => LLMOutcome.respond (some "S")

/-- C3 witness: the exactly-one-summary theorem applied to a concrete fresh
store whose lifecycle run completes. -/
theorem exactly_one_summary_witness :
    summariesFor c3Store "t1" = []
    ∧ taskStatus (processTaskAsync c3Oracle 3 "t1" "A" c3Store) "t1"
        = some TStatus.completed
    ∧ (summariesFor (processTaskAsync c3Oracle 3 "t1" "A" c3Store) "t1").length = 1 :=
  ⟨by decide, by decide,
    (exactly_one_summary c3Oracle 3 "t1" "A" c3Store (by decide)).1 (by decide)⟩

/-- C4.  Status monotonicity: the statuses written for a task by the
create-and-process flow are exactly (pending, processing, completed) or
(pending, processing, failed); every task the recovery sweep picks up is
pending when fetched and the sweep writes exactly (processing, completed)
or (processing, failed) for it — so the observed status sequence of a task
follows one of the two allowed forward chains and never leaves a terminal
state. -/
theorem status_monotonicity
    (cap : String → Nat → LLMOutcome) (maxRetries : Nat)
    (taskId text clientId : String) (store : Store) (t : TaskRow)
    (hnd : (store.tasks.map fun x => x.id).Nodup)
    (ht : t ∈ getPendingTasks store 10) :
    (∃ term, (term = TStatus.completed ∨ term = TStatus.failed) ∧
      statusWritesFor taskId
          ((createTask cap maxRetries taskId text clientId store).log.drop
            store.log.length)
        = [TStatus.pending, TStatus.processing, term])
    ∧ t.status = TStatus.pending
    ∧ (∃ term, (term = TStatus.completed ∨ term = TStatus.failed) ∧
        statusWritesFor t.id
            ((processPendingTasks cap maxRetries store).log.drop store.log.length)
          = [TStatus.processing, term]) := by
  refine ⟨?_, (getPendingTasks_mem store 10 t ht).2, ?_⟩
  · have hlog : (createTask cap maxRetries taskId text clientId store).log
        = store.log ++ ([LogEntry.statusWrite taskId TStatus.pending] ++
            (if (processWithLLM (cap text) maxRetries).result = SENTINEL then
              [LogEntry.statusWrite taskId TStatus.processing,
               LogEntry.statusWrite taskId TStatus.failed]
             else
              [LogEntry.statusWrite taskId TStatus.processing,
               LogEntry.summaryInsert taskId,
               LogEntry.statusWrite taskId TStatus.completed])) := by
      unfold createTask
      rw [processTaskAsync_log]
      rw [show (insertTask store taskId text clientId).log
          = store.log ++ [LogEntry.statusWrite taskId TStatus.pending] from rfl]
      rw [List.append_assoc]
    refine ⟨if (processWithLLM (cap text) maxRetries).result = SENTINEL then
        TStatus.failed else TStatus.completed, ?_, ?_⟩
    · by_cases hsent : (processWithLLM (cap text) maxRetries).result = SENTINEL
      · rw [if_pos hsent]; right; rfl
      · rw [if_neg hsent]; left; rfl
    · rw [hlog, List.drop_left]
      by_cases hsent : (processWithLLM (cap text) maxRetries).result = SENTINEL
      · rw [if_pos hsent, if_pos hsent]
        simp [statusWritesFor]
      · rw [if_neg hsent, if_neg hsent]
        simp [statusWritesFor]
  · obtain ⟨s, u, hsu⟩ := List.append_of_mem ht
    have hids : ((getPendingTasks store 10).map fun x => x.id).Nodup :=
      getPendingTasks_ids_nodup store 10 hnd
    rw [hsu] at hids
    rw [List.map_append, List.map_cons] at hids
    have hmid := List.nodup_middle.mp hids
    have hnotmem := (List.nodup_cons.mp hmid).1
    rw [List.mem_append] at hnotmem
    have hs : ∀ x ∈ s, ¬ x.id = t.id := by
      intro x hx heq
      exact hnotmem (Or.inl (by
        rw [← heq]
        exact List.mem_map_of_mem _ hx))
    have hu : ∀ x ∈ u, ¬ x.id = t.id := by
      intro x hx heq
      exact hnotmem (Or.inr (by
        rw [← heq]
        exact List.mem_map_of_mem _ hx))
    have hlog : (processPendingTasks cap maxRetries store).log
        = store.log ++ ((getPendingTasks store 10).map (sweepBlock cap maxRetries)).flatten := by
      unfold processPendingTasks
      exact foldl_sweep_log cap maxRetries (getPendingTasks store 10) store
    refine ⟨if (processWithLLM (cap t.input) maxRetries).result = SENTINEL then
        TStatus.failed else TStatus.completed, ?_, ?_⟩
    · by_cases hsent : (processWithLLM (cap t.input) maxRetries).result = SENTINEL
      · rw [if_pos hsent]; right; rfl
      · rw [if_neg hsent]; left; rfl
    · rw [hlog, List.drop_left, hsu, List.map_append, List.map_cons,
        List.flatten_append, List.flatten_cons, statusWritesFor_append,
        statusWritesFor_append,
        statusWritesFor_flatten_other cap maxRetries t.id s hs,
        statusWritesFor_flatten_other cap maxRetries t.id u hu,
        statusWritesFor_sweepBlock_self]
      rfl

def c4Store : Store :=
  { tasks := [⟨"t1", "in", none, TStatus.pending, "A", 0⟩]
    summaries := []
    events := []
    clients := []
    nextId := 1
    log := [] }

def c4Task : TaskRow := ⟨"t1", "in", none, TStatus.pending, "A", 0⟩

def c4Cap : String → Nat → LLMOutcome := fun _ _ => LLMOutcome.respond (some "S")

/-- C4 witness: the monotonicity theorem applied to a concrete store whose one
pending task is picked up by the recovery sweep. -/
theorem status_monotonicity_witness :
    (c4Store.tasks.map fun x => x.id).Nodup
    ∧ c4Task ∈ getPendingTasks c4Store 10
    ∧ ∃ term, (term = TStatus.completed ∨ term = TStatus.failed) ∧
        statusWritesFor "t1"
            ((processPendingTasks c4Cap 3 c4Store).log.drop c4Store.log.length)
          = [TStatus.processing, term] :=
  ⟨by decide, by decide,
    (status_monotonicity c4Cap 3 "t2" "txt" "A" c4Store c4Task (by decide)
      (by decide)).2.2⟩

/-! ## Retry-bound claim -/

def c2Store : Store :=
  { tasks := [⟨"t1", "in", none, TStatus.pending, "A", 0⟩]
    summaries := []
    events := []
    clients := []
    nextId := 1
    log := [] }

/-- C2 counterexample: a capability that fails zero times and then succeeds
(k = 0 < 3) — its successful, non-blank response happening to equal the
sentinel string — is invoked exactly once, yet the task ends failed, not
completed: the claim as stated is false for this input. -/
theorem retry_bound_counterexample :
    attemptContent (LLMOutcome.respond (some "Error processing input."))
        = some "Error processing input."
    ∧ (processWithLLM (fun _ => LLMOutcome.respond (some "Error processing input."))
        3).invocations = 1
    ∧ ¬ taskStatus
        (processTaskAsync (fun _ => LLMOutcome.respond (some "Error processing input."))
          3 "t1" "A" c2Store) "t1" = some TStatus.completed
    ∧ taskStatus
        (processTaskAsync (fun _ => LLMOutcome.respond (some "Error processing input."))
          3 "t1" "A" c2Store) "t1" = some TStatus.failed := by
  decide

/-- C2 amended.  Retry bound: if the capability fails exactly `k` times and
then succeeds with trimmed content `c` (`k <` max retries), processWithLLM
invokes it exactly `k + 1` times, sleeps the exponential backoff delays
`min (1000 * 2 ^ i) 5000` between attempts, returns `c`, and — provided `c`
is not itself the sentinel string "Error processing input." — the task ends
completed; if the capability always fails, it is invoked exactly max-retries
times, the backoff delays are slept between consecutive attempts, and the
task ends failed. -/
theorem retry_bound
    (oracle : Nat → LLMOutcome) (k maxRetries : Nat) (c : String)
    (taskId clientId : String) (store : Store)
    (hk : k < maxRetries)
    (hfail : ∀ a, 1 ≤ a → a ≤ k → attemptContent (oracle a) = none)
    (hsucc : attemptContent (oracle (k + 1)) = some c)
    (hc : ¬ c = SENTINEL)
    (hrow : taskStatus store taskId = some TStatus.pending)
    (oracle2 : Nat → LLMOutcome)
    (hfail2 : ∀ a, attemptContent (oracle2 a) = none) :
    processWithLLM oracle maxRetries
        = ⟨c, k + 1, (List.range k).map fun i => min (1000 * 2 ^ i) 5000⟩
    ∧ taskStatus (processTaskAsync oracle maxRetries taskId clientId store) taskId
        = some TStatus.completed
    ∧ processWithLLM oracle2 maxRetries
        = ⟨SENTINEL, maxRetries,
            (List.range (maxRetries - 1)).map fun i => min (1000 * 2 ^ i) 5000⟩
    ∧ taskStatus (processTaskAsync oracle2 maxRetries taskId clientId store) taskId
        = some TStatus.failed := by
  have h1 : processWithLLM oracle maxRetries = ⟨c, k + 1, backoffDelays 1 k⟩ := by
    unfold processWithLLM
    exact runLLM_fail_then_succeed oracle c k maxRetries 1 hk
      (fun a ha hb => hfail a ha (by omega))
      (by rw [Nat.add_comm 1 k]; exact hsucc)
  have h2 : processWithLLM oracle2 maxRetries
      = ⟨SENTINEL, maxRetries, backoffDelays 1 (maxRetries - 1)⟩ := by
    unfold processWithLLM
    exact runLLM_all_fail oracle2 maxRetries 1 (fun a _ _ => hfail2 a)
  refine ⟨by rw [h1, backoffDelays_one], ?_, by rw [h2, backoffDelays_one], ?_⟩
  · have hres : ¬ (processWithLLM oracle maxRetries).result = SENTINEL := by
      rw [h1]; exact hc
    have hA : processTaskAsync oracle maxRetries taskId clientId store
        = updateTaskStatus
            (createSummary (updateTaskStatus store taskId TStatus.processing none)
              taskId clientId (processWithLLM oracle maxRetries).result)
            taskId TStatus.completed (some (processWithLLM oracle maxRetries).result) := by
      unfold processTaskAsync
      rw [if_neg hres]
    rw [hA, taskStatus_update_self, taskStatus_createSummary, taskStatus_update_self,
      hrow]
    rfl
  · have hres : (processWithLLM oracle2 maxRetries).result = SENTINEL := by
      rw [h2]
    have hA : processTaskAsync oracle2 maxRetries taskId clientId store
        = updateTaskStatus (updateTaskStatus store taskId TStatus.processing none)
            taskId TStatus.failed (some (processWithLLM oracle2 maxRetries).result) := by
      unfold processTaskAsync
      rw [if_pos hres]
    rw [hA, taskStatus_update_self, taskStatus_update_self, hrow]
    rfl

def c2OracleA : Nat → LLMOutcome := fun a =>
  if a = 1 then LLMOutcome.throwErr else LLMOutcome.respond (some "S")

def c2OracleB : Nat → LLMOutcome := fun _ => LLMOutcome.throwErr

/-- C2 witness: the amended retry-bound theorem applied to a capability failing
once then succeeding (two invocations, one 1000ms backoff, task completed) and
an always-failing capability (three invocations, task failed). -/
theorem retry_bound_witness :
    (1 < 3 ∧ attemptContent (c2OracleA 2) = some "S"
      ∧ taskStatus c2Store "t1" = some TStatus.pending)
    ∧ processWithLLM c2OracleA 3 = ⟨"S", 2, [1000]⟩
    ∧ taskStatus (processTaskAsync c2OracleA 3 "t1" "A" c2Store) "t1"
        = some TStatus.completed
    ∧ processWithLLM c2OracleB 3 = ⟨SENTINEL, 3, [1000, 2000]⟩
    ∧ taskStatus (processTaskAsync c2OracleB 3 "t1" "A" c2Store) "t1"
        = some TStatus.failed := by
  have h := retry_bound c2OracleA 1 3 "S" "t1" "A" c2Store (by decide)
    (fun a ha hb => by
      have : a = 1 := by omega
      rw [this]; decide)
    (by decide) (by decide) (by decide) c2OracleB (fun a => rfl)
  exact ⟨⟨by decide, by decide, by decide⟩,
    by rw [h.1]; decide,
    h.2.1,
    by rw [h.2.2.1]; decide,
    h.2.2.2⟩

/-! ## Recovery-sweeper claim-guard claim -/

def c5Task : TaskRow := ⟨"t1", "in", some "done", TStatus.completed, "A", 0⟩

def c5Store : Store :=
  { tasks := [c5Task]
    summaries := []
    events := []
    clients := []
    nextId := 1
    log := [] }

def c5Cap : String → Nat → LLMOutcome := fun _ _ => LLMOutcome.respond (some "S")

/-- C5 counterexample: the first step of the sweeper loop body is
updateTaskStatus(id, processing), whose filter matches on the task id only —
applied to a store in which the task row is already completed (as after a
lost race), it still overwrites the status with processing, and the loop body
does not skip: it runs the full lifecycle, writing statuses and inserting a
new summary row.  The claim's conditional pending-guarded update and skip do
not exist in the code. -/
theorem recovery_claim_guard_counterexample :
    taskStatus c5Store "t1" = some TStatus.completed
    ∧ taskStatus (updateTaskStatus c5Store "t1" TStatus.processing none) "t1"
        = some TStatus.processing
    ∧ (sweepTask c5Cap 3 c5Task c5Store).log
        = [LogEntry.statusWrite "t1" TStatus.processing,
           LogEntry.summaryInsert "t1",
           LogEntry.statusWrite "t1" TStatus.completed]
    ∧ (summariesFor (sweepTask c5Cap 3 c5Task c5Store) "t1").length = 1 := by
  decide

/-- C5 amended.  The sweeper's first step is an unconditional update of the
task's status to processing that matches on the task id only (no
status=pending condition): whatever the row's current status, the update
overwrites it with processing; and the loop body never skips — it always
appends a full lifecycle block (at least two status writes) for the task. -/
theorem recovery_claim_guard
    (store : Store) (t : TaskRow) (cap : String → Nat → LLMOutcome)
    (maxRetries : Nat) (hrow : ¬ taskStatus store t.id = none) :
    taskStatus (updateTaskStatus store t.id TStatus.processing none) t.id
        = some TStatus.processing
    ∧ 2 ≤ (statusWritesFor t.id
        ((sweepTask cap maxRetries t store).log.drop store.log.length)).length := by
  constructor
  · rw [taskStatus_update_self]
    cases hf : taskStatus store t.id with
    | none => exact absurd hf hrow
    | some st => rfl
  · rw [sweepTask_log, List.drop_left, statusWritesFor_sweepBlock_self]
    simp

def c5bStore : Store :=
  { tasks := [⟨"t1", "in", some "done", TStatus.failed, "A", 0⟩]
    summaries := []
    events := []
    clients := []
    nextId := 1
    log := [] }

def c5bTask : TaskRow := ⟨"t1", "in", some "done", TStatus.failed, "A", 0⟩

/-- C5 witness: the amended theorem applied to a concrete store whose task row
is in a terminal state — the unconditional first-step update still moves it to
processing. -/
theorem recovery_claim_guard_witness :
    (¬ taskStatus c5bStore "t1" = none)
    ∧ taskStatus (updateTaskStatus c5bStore "t1" TStatus.processing none) "t1"
        = some TStatus.processing :=
  ⟨by decide, (recovery_claim_guard c5bStore c5bTask c5Cap 3 (by decide)).1⟩

/-! ## Pending-notification sweep fetch claim -/

def c6Event : NotificationEvent := ⟨1, "A", 1, EChannel.whatsapp, EStatus.pending, 0⟩

def c6Store : Store :=
  { tasks := []
    summaries := []
    events := [c6Event]
    clients := []
    nextId := 2
    log := [] }

/-- C6 counterexample: a pending notification event on the whatsapp channel is
not fetched by the sweep — fetchPendingEmails filters on type = email as well
as status = pending, so not every pending NotificationEvent is eligible. -/
theorem pending_email_sweep_fetch_counterexample :
    c6Event ∈ c6Store.events
    ∧ c6Event.status = EStatus.pending
    ∧ fetchPendingEmails c6Store 10 = [] := by
  decide

/-- C6 amended.  Each sweep cycle fetches up to N notification events with
status = pending AND type = email (not every pending event regardless of
channel), ordered oldest-first by creation time, across all tenants: every
fetched event is a pending email event, at most N are fetched, the batch is
sorted oldest-first, any pending email event of any tenant is fetched whenever
the pending email events fit in the batch, and the worker clamps the batch
size into 1–100 (defaulting to 10) before fetching. -/
theorem pending_email_sweep_fetch
    (store : Store) (n : Nat) (e : NotificationEvent) (b : Int)
    (he : e ∈ store.events) (htype : e.type = EChannel.email)
    (hst : e.status = EStatus.pending)
    (hfit : (store.events.filter fun x =>
        decide (x.type = EChannel.email ∧ x.status = EStatus.pending)).length ≤ n) :
    (∀ x ∈ fetchPendingEmails store n,
        x.type = EChannel.email ∧ x.status = EStatus.pending)
    ∧ (fetchPendingEmails store n).length ≤ n
    ∧ List.Pairwise eventOldestFirst (fetchPendingEmails store n)
    ∧ e ∈ fetchPendingEmails store n
    ∧ 1 ≤ normalizeBatchSize b
    ∧ normalizeBatchSize b ≤ 100
    ∧ processPendingEmailsFetch store b
        = fetchPendingEmails store (normalizeBatchSize b).toNat := by
  refine ⟨fun x hx => (fetchPendingEmails_mem store n x hx).2, ?_, ?_, ?_, ?_, ?_, rfl⟩
  · unfold fetchPendingEmails
    rw [List.length_take]
    exact min_le_left _ _
  · unfold fetchPendingEmails
    exact List.Pairwise.sublist (List.take_sublist _ _)
      (List.sorted_insertionSort eventOldestFirst _)
  · unfold fetchPendingEmails
    have hperm := List.perm_insertionSort eventOldestFirst
      (store.events.filter fun x =>
        decide (x.type = EChannel.email ∧ x.status = EStatus.pending))
    have hlen : (List.insertionSort eventOldestFirst
        (store.events.filter fun x =>
          decide (x.type = EChannel.email ∧ x.status = EStatus.pending))).length ≤ n := by
      rw [hperm.length_eq]
      exact hfit
    rw [List.take_of_length_le hlen]
    exact hperm.mem_iff.mpr (List.mem_filter.mpr ⟨he, by simp [htype, hst]⟩)
  · unfold normalizeBatchSize
    by_cases h : b < 1 ∨ b > 100
    · rw [if_pos h]; decide
    · rw [if_neg h]; omega
  · unfold normalizeBatchSize
    by_cases h : b < 1 ∨ b > 100
    · rw [if_pos h]; decide
    · rw [if_neg h]; omega

def c6bEvent : NotificationEvent := ⟨1, "A", 1, EChannel.email, EStatus.pending, 0⟩

def c6bStore : Store :=
  { tasks := []
    summaries := []
    events := [c6bEvent]
    clients := []
    nextId := 2
    log := [] }

/-- C6 witness: the amended theorem applied to a concrete store with one
pending email event and an out-of-range batch size. -/
theorem pending_email_sweep_fetch_witness :
    ((c6bStore.events.filter fun x =>
        decide (x.type = EChannel.email ∧ x.status = EStatus.pending)).length ≤ 10)
    ∧ c6bEvent ∈ fetchPendingEmails c6bStore 10
    ∧ 1 ≤ normalizeBatchSize 0
    ∧ normalizeBatchSize 0 ≤ 100 := by
  have h := pending_email_sweep_fetch c6bStore 10 c6bEvent 0 (by decide) (by decide)
    (by decide) (by decide)
  exact ⟨by decide, h.2.2.2.1, h.2.2.2.2.1, h.2.2.2.2.2.1⟩

/-! ## Empty-response-is-failure claim -/

/-- C7.  Empty-response-is-failure: a summarization response whose trimmed
content is empty (such as "" or "   ") makes the attempt fail in both worker
variants; an attempt never yields an empty summary; and a capability that
only ever returns whitespace-only responses drives processWithLLM to the
sentinel, so no task completes from such responses. -/
theorem empty_response_is_failure
    (s : String) (hws : jsTrim s = "")
    (o : LLMOutcome)
    (oracle : Nat → LLMOutcome) (maxRetries : Nat)
    (hall : ∀ a, ∃ w, oracle a = LLMOutcome.respond (some w) ∧ jsTrim w = "")
    (taskId clientId : String) (store : Store) :
    attemptContent (LLMOutcome.respond (some s)) = none
    ∧ processWithLLMSingle (LLMOutcome.respond (some s)) = SENTINEL
    ∧ ¬ attemptContent o = some ""
    ∧ (processWithLLM oracle maxRetries).result = SENTINEL
    ∧ ¬ taskStatus (processTaskAsync oracle maxRetries taskId clientId store) taskId
        = some TStatus.completed := by
  have hac : attemptContent (LLMOutcome.respond (some s)) = none := by
    simp [attemptContent, hws]
  have hnone : ∀ a, attemptContent (oracle a) = none := by
    intro a
    obtain ⟨w, hw1, hw2⟩ := hall a
    rw [hw1]
    simp [attemptContent, hw2]
  have hres : (processWithLLM oracle maxRetries).result = SENTINEL := by
    unfold processWithLLM
    rw [runLLM_all_fail oracle maxRetries 1 (fun a _ _ => hnone a)]
  refine ⟨hac, ?_, ?_, hres, ?_⟩
  · unfold processWithLLMSingle
    rw [hac]
  · intro hsome
    cases o with
    | throwErr => simp [attemptContent] at hsome
    | respond oc =>
        cases oc with
        | none => simp [attemptContent] at hsome
        | some w =>
            by_cases hw : jsTrim w = ""
            · simp [attemptContent, hw] at hsome
            · simp [attemptContent, hw] at hsome
  · have hA : processTaskAsync oracle maxRetries taskId clientId store
        = updateTaskStatus (updateTaskStatus store taskId TStatus.processing none)
            taskId TStatus.failed (some (processWithLLM oracle maxRetries).result) := by
      unfold processTaskAsync
      rw [if_pos hres]
    intro hcomp
    rw [hA, taskStatus_update_self, taskStatus_update_self] at hcomp
    cases hts : taskStatus store taskId with
    | none => rw [hts] at hcomp; simp at hcomp
    | some st => rw [hts] at hcomp; simp at hcomp

def c7Oracle : Nat → LLMOutcome := fun _ => LLMOutcome.respond (some "   ")

def c7Store : Store :=
  { tasks := [⟨"t1", "in", none, TStatus.pending, "A", 0⟩]
    summaries := []
    events := []
    clients := []
    nextId := 1
    log := [] }

/-- C7 witness: the theorem applied at the whitespace-only response "   " and
at the empty response "", with a capability that always answers "   ". -/
theorem empty_response_is_failure_witness :
    jsTrim "   " = ""
    ∧ attemptContent (LLMOutcome.respond (some "   ")) = none
    ∧ processWithLLMSingle (LLMOutcome.respond (some "")) = SENTINEL
    ∧ (processWithLLM c7Oracle 3).result = SENTINEL := by
  have h1 := empty_response_is_failure "   " (by decide) (LLMOutcome.respond (some ""))
    c7Oracle 3 (fun a => ⟨"   ", rfl, by decide⟩) "t1" "A" c7Store
  have h2 := empty_response_is_failure "" (by decide) LLMOutcome.throwErr
    c7Oracle 3 (fun a => ⟨"   ", rfl, by decide⟩) "t1" "A" c7Store
  exact ⟨by decide, h1.1, h2.2.1, h1.2.2.2.1⟩

/-! ## Total-in-errors claim for the summarization wrapper -/

/-- C9.  The summarization wrapper is total in errors: processWithLLM always
returns a plain string — either the sentinel "Error processing input." or the
content of some successful attempt; if every attempt fails it returns exactly
the sentinel; the single-attempt variant likewise; and the caller
(processTaskAsync) classifies the task as failed exactly when the result
equals the sentinel. -/
theorem summarization_total_in_errors
    (oracle : Nat → LLMOutcome) (maxRetries : Nat) (o : LLMOutcome)
    (taskId clientId : String) (store : Store)
    (hrow : ¬ taskStatus store taskId = none) :
    ((processWithLLM oracle maxRetries).result = SENTINEL
      ∨ ∃ a, 1 ≤ a ∧ a ≤ maxRetries
          ∧ attemptContent (oracle a) = some (processWithLLM oracle maxRetries).result)
    ∧ ((∀ a, attemptContent (oracle a) = none)
        → (processWithLLM oracle maxRetries).result = SENTINEL)
    ∧ (processWithLLMSingle o = SENTINEL
        ∨ attemptContent o = some (processWithLLMSingle o))
    ∧ (taskStatus (processTaskAsync oracle maxRetries taskId clientId store) taskId
          = some TStatus.failed
        ↔ (processWithLLM oracle maxRetries).result = SENTINEL) := by
  obtain ⟨st0, hst0⟩ : ∃ st, taskStatus store taskId = some st := by
    cases h : taskStatus store taskId with
    | none => exact absurd h hrow
    | some st => exact ⟨st, rfl⟩
  refine ⟨?_, ?_, ?_, ?_, ?_⟩
  · rcases runLLM_result_cases oracle maxRetries 1 with h | ⟨a, h1, h2, h3⟩
    · left; exact h
    · right; exact ⟨a, h1, by omega, h3⟩
  · intro hall
    unfold processWithLLM
    rw [runLLM_all_fail oracle maxRetries 1 (fun a _ _ => hall a)]
  · unfold processWithLLMSingle
    cases hc : attemptContent o with
    | none => left; rfl
    | some c => right; rfl
  · intro hfailed
    by_contra hns
    have hA : processTaskAsync oracle maxRetries taskId clientId store
        = updateTaskStatus
            (createSummary (updateTaskStatus store taskId TStatus.processing none)
              taskId clientId (processWithLLM oracle maxRetries).result)
            taskId TStatus.completed (some (processWithLLM oracle maxRetries).result) := by
      unfold processTaskAsync
      rw [if_neg hns]
    rw [hA, taskStatus_update_self, taskStatus_createSummary, taskStatus_update_self,
      hst0] at hfailed
    simp at hfailed
  · intro hsent
    have hA : processTaskAsync oracle maxRetries taskId clientId store
        = updateTaskStatus (updateTaskStatus store taskId TStatus.processing none)
            taskId TStatus.failed (some (processWithLLM oracle maxRetries).result) := by
      unfold processTaskAsync
      rw [if_pos hsent]
    rw [hA, taskStatus_update_self, taskStatus_update_self, hst0]
    rfl

def c9Oracle : Nat → LLMOutcome := fun _ => LLMOutcome.throwErr

def c9Store : Store :=
  { tasks := [⟨"t1", "in", none, TStatus.pending, "A", 0⟩]
    summaries := []
    events := []
    clients := []
    nextId := 1
    log := [] }

/-- C9 witness: the theorem applied to a concrete always-throwing capability
and a concrete store. -/
theorem summarization_total_in_errors_witness :
    (¬ taskStatus c9Store "t1" = none)
    ∧ (taskStatus (processTaskAsync c9Oracle 3 "t1" "A" c9Store) "t1"
          = some TStatus.failed
        ↔ (processWithLLM c9Oracle 3).result = SENTINEL) := by
  have h := summarization_total_in_errors c9Oracle 3 LLMOutcome.throwErr "t1" "A"
    c9Store (by decide)
  exact ⟨by decide, h.2.2.2⟩

/-! ## HTML-escaping claim -/

/-- The five characters that must never survive unescaped into the email HTML
(the ampersand is excluded: it legitimately appears as the head of every
produced entity). -/
def rawUnsafe (c : Char) : Bool :=
  c == '<' || c == '>' || c == Char.ofNat 34 || c == Char.ofNat 39 || c == '/'

lemma escapeData_all_safe : ∀ l : List Char,
    (escapeData l).all (fun c => ! rawUnsafe c) = true := by
  intro l
  induction l with
  | nil => rfl
  | cons c cs ih =>
      show ((htmlEscapeChar c).data ++ escapeData cs).all _ = true
      rw [List.all_append]
      have hc : (htmlEscapeChar c).data.all (fun x => ! rawUnsafe x) = true := by
        unfold htmlEscapeChar
        by_cases h1 : c = '&'
        · rw [if_pos h1]; decide
        rw [if_neg h1]
        by_cases h2 : c = '<'
        · rw [if_pos h2]; decide
        rw [if_neg h2]
        by_cases h3 : c = '>'
        · rw [if_pos h3]; decide
        rw [if_neg h3]
        by_cases h4 : c = Char.ofNat 34
        · rw [if_pos h4]; decide
        rw [if_neg h4]
        by_cases h5 : c = Char.ofNat 39
        · rw [if_pos h5]; decide
        rw [if_neg h5]
        by_cases h6 : c = '/'
        · rw [if_pos h6]; decide
        rw [if_neg h6]
        have hr : rawUnsafe c = false := by
          unfold rawUnsafe
          rw [beq_eq_false_iff_ne.mpr h2, beq_eq_false_iff_ne.mpr h3,
            beq_eq_false_iff_ne.mpr h4, beq_eq_false_iff_ne.mpr h5,
            beq_eq_false_iff_ne.mpr h6]
          rfl
        show [c].all (fun x => ! rawUnsafe x) = true
        rw [List.all_cons, hr]
        rfl
      rw [hc, ih]
      rfl

/-- C10.  Summary text is HTML-escaped before delivery: every email the
notification processor hands to the provider embeds escapeHtml of the
referenced summary's text between the fixed template halves (never the raw
text); the per-character map sends each of the six special characters to its
HTML entity; and the escaped text contains no raw occurrence of
<, >, double-quote, apostrophe, or slash. -/
theorem summary_html_escaped
    (store : Store) (event : NotificationEvent) (ok : Bool) (mail : OutboundEmail)
    (hmail : (processEmailNotification store event ok).2.1 = some mail)
    (w : String) :
    (∃ srow, findSummary store event.summary_id = some srow
      ∧ mail.html = emailHtmlBefore ++ escapeHtml srow.summary ++ emailHtmlAfter)
    ∧ htmlEscapeChar '&' = "&amp;"
    ∧ htmlEscapeChar '<' = "&lt;"
    ∧ htmlEscapeChar '>' = "&gt;"
    ∧ htmlEscapeChar (Char.ofNat 34) = "&quot;"
    ∧ htmlEscapeChar (Char.ofNat 39) = "&#x27;"
    ∧ htmlEscapeChar '/' = "&#x2F;"
    ∧ (escapeHtml w).data.all (fun c => ! rawUnsafe c) = true := by
  cases hfs : findSummary store event.summary_id with
  | none =>
      have hce : getClientEmailForSummary store event.summary_id = none := by
        unfold getClientEmailForSummary
        simp only [hfs]
      unfold processEmailNotification at hmail
      rw [hce] at hmail
      simp at hmail
  | some srow =>
      cases hfc : findClient store srow.client_id with
      | none =>
          have hce : getClientEmailForSummary store event.summary_id = none := by
            unfold getClientEmailForSummary
            simp only [hfs, hfc]
          unfold processEmailNotification at hmail
          rw [hce] at hmail
          simp at hmail
      | some crow =>
          have hsc : getSummaryContent store event.summary_id
              = some (srow.summary, crow.name) := by
            unfold getSummaryContent
            simp only [hfs, hfc]
          cases hem : crow.email with
          | none =>
              have hce : getClientEmailForSummary store event.summary_id = none := by
                unfold getClientEmailForSummary
                simp only [hfs, hfc, hem]
              unfold processEmailNotification at hmail
              rw [hce] at hmail
              simp at hmail
          | some em =>
              by_cases hemE : em = ""
              · have hce : getClientEmailForSummary store event.summary_id = none := by
                  unfold getClientEmailForSummary
                  simp only [hfs, hfc, hem]
                  rw [if_pos hemE]
                unfold processEmailNotification at hmail
                rw [hce] at hmail
                simp at hmail
              · have hce : getClientEmailForSummary store event.summary_id = some em := by
                  unfold getClientEmailForSummary
                  simp only [hfs, hfc, hem]
                  rw [if_neg hemE]
                unfold processEmailNotification at hmail
                rw [hce, hsc] at hmail
                have hm : mail = ⟨em, emailSubject, buildEmailHtml srow.summary⟩ := by
                  cases ok
                  · simp at hmail
                    exact hmail.symm
                  · simp at hmail
                    exact hmail.symm
                refine ⟨⟨srow, rfl, ?_⟩, rfl, rfl, rfl, rfl, rfl, rfl,
                  escapeData_all_safe w.data⟩
                rw [hm]
                rfl

def c10Client : ClientRow := ⟨"A", "Acme", some "a@x.com"⟩

def c10Summary : SummaryRow := ⟨1, "t1", "A", "a<b", 1⟩

def c10Store : Store :=
  { tasks := []
    summaries := [c10Summary]
    events := []
    clients := [c10Client]
    nextId := 2
    log := [] }

def c10Event : NotificationEvent := ⟨5, "A", 1, EChannel.email, EStatus.pending, 1⟩

def c10Mail : OutboundEmail := ⟨"a@x.com", emailSubject, buildEmailHtml "a<b"⟩

set_option maxRecDepth 8000 in
/-- C10 witness: the theorem applied to a concrete notification whose summary
text contains a raw angle bracket. -/
theorem summary_html_escaped_witness :
    (processEmailNotification c10Store c10Event true).2.1 = some c10Mail
    ∧ (escapeHtml "a<b").data.all (fun c => ! rawUnsafe c) = true := by
  have h := summary_html_escaped c10Store c10Event true c10Mail (by decide) "a<b"
  exact ⟨by decide, h.2.2.2.2.2.2.2⟩

end IncludedMVP
